import Mathlib

/-!
Verification development for the ABC assembler module of this repository
(adhoc-midi-scripts/abc_assembler.py).

The Python source is shallowly embedded as executable Lean definitions:
  - strings are processed as lists of characters (`Chars`);
  - Python exceptions are modelled by `Except String`;
  - Python float arithmetic is modelled by exact rationals; the textual
    rendering of numbers in messages is modelled by exact-rational
    formatters standing in for CPython float formatting;
  - regular expressions from the source are translated to equivalent
    deterministic character scanners.
-/

set_option maxRecDepth 4096

deriving instance DecidableEq for Except

abbrev Chars := List Char

/-- Python str.split(sep) for a single separator character: always returns a
non-empty list of (possibly empty) segments. -/
def splitOnCharL (sep : Char) : Chars → List Chars
  | [] => [[]]
  | c :: rest =>
    if c = sep then [] :: splitOnCharL sep rest
    else
      match splitOnCharL sep rest with
      | [] => [[c]]
      | l :: ls => (c :: l) :: ls

/-- Embedding of sep.join for the newline separator: the inverse of line
splitting on lists of newline-free lines. -/
def joinLinesL : List Chars → Chars
  | [] => []
  | [l] => l
  | l :: ls => l ++ '\n' :: joinLinesL ls

/-- Helper for the quoted-text removal regex sub with pattern
quote [^quote]* quote : locate the next double quote, returning the suffix
strictly after it. -/
def findQuoteSplit : Chars → Option Chars
  | [] => none
  | c :: rest => if c = '"' then some rest else findQuoteSplit rest

/-- re.sub removing double-quoted chord symbols (step 1 of the cleaning in
count_abc_units).  A quote with no matching closing quote is left in place,
exactly as the regex leaves it unmatched. -/
def stripQuoted : Chars → Chars
  | [] => []
  | c :: rest =>
    if c = '"' then
      match hq : findQuoteSplit rest with
      | some post => stripQuoted post
      | none => c :: rest
    else c :: stripQuoted rest
termination_by l => l.length
decreasing_by
  · have key : ∀ (l post : Chars), findQuoteSplit l = some post →
        post.length < l.length := by
      intro l
      induction l with
      | nil => intro post hpost; simp [findQuoteSplit] at hpost
      | cons a t ih =>
        intro post hpost
        by_cases ha : a = '"'
        · simp only [findQuoteSplit, if_pos ha, Option.some.injEq] at hpost
          subst hpost
          simp
        · simp only [findQuoteSplit, if_neg ha] at hpost
          exact Nat.lt_trans (ih post hpost) (Nat.lt_succ_self t.length)
    simpa using Nat.lt_trans (key _ _ (by assumption)) (Nat.lt_succ_self _)
  · simp

/-- re.sub collapsing every maximal run of bar lines into a single space
(step 2 of the cleaning).  The flag records whether we are inside a run. -/
def collapseBarsAux : Bool → Chars → Chars
  | _, [] => []
  | inRun, c :: rest =>
    if c = '|' then
      if inRun then collapseBarsAux true rest
      else ' ' :: collapseBarsAux true rest
    else c :: collapseBarsAux false rest

def collapseBars (l : Chars) : Chars := collapseBarsAux false l

/-- re.sub removing a double-percent directive and the remainder of its line
(step 3 of the cleaning; the regex dot does not cross a newline). -/
def stripDirectives : Chars → Chars
  | [] => []
  | [c] => [c]
  | c :: d :: rest =>
    if c = '%' ∧ d = '%' then
      stripDirectives (rest.dropWhile (fun x => ¬ x = '\n'))
    else c :: stripDirectives (d :: rest)
termination_by l => l.length
decreasing_by
  · have h := (List.dropWhile_sublist
      (l := rest) (fun x => decide (¬ x = '\n'))).length_le
    simp only [List.length_cons]
    omega
  · simp

/-- Helper for the non-greedy bracket regex: find the nearest closing bracket
with no newline before it, returning the suffix strictly after it. -/
def findCloseSplit : Chars → Option Chars
  | [] => none
  | c :: rest =>
    if c = ']' then some rest
    else if c = '\n' then none
    else findCloseSplit rest

/-- re.sub removing bracketed chord groups (step 4 of the cleaning):
non-greedy match from an opening bracket to the nearest closing bracket on
the same line; an opening bracket with no such close is kept. -/
def stripBrackets : Chars → Chars
  | [] => []
  | c :: rest =>
    if c = '[' then
      match hb : findCloseSplit rest with
      | some post => stripBrackets post
      | none => c :: stripBrackets rest
    else c :: stripBrackets rest
termination_by l => l.length
decreasing_by
  · have key : ∀ (l post : Chars), findCloseSplit l = some post →
        post.length < l.length := by
      intro l
      induction l with
      | nil => intro post hpost; simp [findCloseSplit] at hpost
      | cons a t ih =>
        intro post hpost
        by_cases ha : a = ']'
        · simp only [findCloseSplit, if_pos ha, Option.some.injEq] at hpost
          subst hpost
          simp
        · by_cases hn : a = '\n'
          · simp [findCloseSplit, ha, hn] at hpost
          · simp only [findCloseSplit, if_neg ha, if_neg hn] at hpost
            exact Nat.lt_trans (ih post hpost) (Nat.lt_succ_self t.length)
    simpa using Nat.lt_trans (key _ _ (by assumption)) (Nat.lt_succ_self _)
  · simp
  · simp

/-- The full preprocessing pipeline of count_abc_units, in source order:
quoted chord symbols, bar lines, directives, bracketed chord groups. -/
def cleanAbc (l : Chars) : Chars :=
  stripBrackets (stripDirectives (collapseBars (stripQuoted l)))

/-- Character class of the note/rest letter in the token pattern. -/
def isNoteLetter (c : Char) : Bool :=
  ('A' ≤ c && c ≤ 'G') || ('a' ≤ c && c ≤ 'g') || c = 'z'

/-- The apostrophe character, written numerically. -/
def apoChar : Char := Char.ofNat 39

/-- Octave-shift marks (comma and apostrophe) in the token pattern. -/
def isOctaveMark (c : Char) : Bool := c = ',' || c = apoChar

def digitsToNat (ds : Chars) : Nat :=
  ds.foldl (fun a c => a * 10 + (c.toNat - 48)) 0

/-- An empty digit group is an absent regex group. -/
def digitsOpt (ds : Chars) : Option Nat :=
  if ds.isEmpty then none else some (digitsToNat ds)

/-- One match of the note regex: the duration-relevant groups
numerator digits, slash, denominator digits. -/
structure ABCTok where
  num : Option Nat
  slash : Bool
  denom : Option Nat
deriving DecidableEq, Repr

/-- Consume the part of a note token after its letter: octave marks, an
optional numerator digit group, an optional slash, and an optional
denominator digit group.  Returns the token and the unconsumed suffix. -/
def afterLetter (l : Chars) : ABCTok × Chars :=
  match (l.dropWhile isOctaveMark).dropWhile Char.isDigit with
  | c :: r3 =>
    if c = '/' then
      (⟨digitsOpt ((l.dropWhile isOctaveMark).takeWhile Char.isDigit), true,
        digitsOpt (r3.takeWhile Char.isDigit)⟩, r3.dropWhile Char.isDigit)
    else
      (⟨digitsOpt ((l.dropWhile isOctaveMark).takeWhile Char.isDigit), false, none⟩,
        c :: r3)
  | [] =>
    (⟨digitsOpt ((l.dropWhile isOctaveMark).takeWhile Char.isDigit), false, none⟩, [])

/-- The regex finditer loop of count_abc_units: scan left to right; each
occurrence of a letter in the note class begins one token (accidentals and
octave marks never contain such letters, so the non-overlapping regex matches
are in one-to-one correspondence with these letters). -/
def scanTokens : Chars → List ABCTok
  | [] => []
  | c :: rest =>
    if isNoteLetter c then
      (afterLetter rest).1 :: scanTokens (afterLetter rest).2
    else scanTokens rest
termination_by l => l.length
decreasing_by
  · have key : (afterLetter rest).2.length ≤ rest.length := by
      have h1 := (List.dropWhile_sublist (l := rest) isOctaveMark).length_le
      have h2 := (List.dropWhile_sublist
        (l := rest.dropWhile isOctaveMark) Char.isDigit).length_le
      unfold afterLetter
      cases hr2 : (rest.dropWhile isOctaveMark).dropWhile Char.isDigit with
      | nil => simp
      | cons c r3 =>
        rw [hr2] at h2
        simp only [List.length_cons] at h2
        have h3 := (List.dropWhile_sublist (l := r3) Char.isDigit).length_le
        by_cases hc : c = '/'
        · simp only [if_pos hc]
          omega
        · simp only [if_neg hc, List.length_cons]
          omega
    simpa using Nat.lt_succ_of_le key
  · simp

/-- Duration of one token, by the first-match precedence of the source:
num and slash and denom; slash and denom; num alone; default 1.
A zero denominator models the Python ZeroDivisionError. -/
def tokDur (t : ABCTok) : Except String ℚ :=
  match t.num, t.slash, t.denom with
  | some n, true, some d =>
    if d = 0 then .error "ZeroDivisionError" else .ok ((n : ℚ) / (d : ℚ))
  | none, true, some d =>
    if d = 0 then .error "ZeroDivisionError" else .ok (1 / (d : ℚ))
  | some n, _, _ => .ok (n : ℚ)
  | _, _, _ => .ok 1

/-- The accumulation loop: total starts at 0 and each token duration is
added in scan order; a raised error aborts the loop. -/
def countLoop (acc : ℚ) : List ABCTok → Except String ℚ
  | [] => .ok acc
  | t :: ts =>
    match tokDur t with
    | .error e => .error e
    | .ok d => countLoop (acc + d) ts

/-- Resolve every token duration, if all of them resolve. -/
def resolveAll : List ABCTok → Option (List ℚ)
  | [] => some []
  | t :: ts =>
    match tokDur t, resolveAll ts with
    | .ok d, some ds => some (d :: ds)
    | _, _ => none

/-- count_abc_units from the source: clean the snippet, scan the note
tokens, and sum their durations. -/
def count_abc_units (abc : String) : Except String ℚ :=
  countLoop 0 (scanTokens (cleanAbc abc.data))

/-- Python int(...) on a string: optional surrounding whitespace, optional
sign, a non-empty run of decimal digits.  (Digit-group underscores and
non-ASCII digits accepted by CPython are not modelled; no claim uses them.) -/
def pyInt (l : Chars) : Option Int :=
  match (l.dropWhile Char.isWhitespace).reverse.dropWhile Char.isWhitespace
      |>.reverse with
  | '+' :: ds =>
    if ds ≠ [] ∧ ds.all Char.isDigit then some (digitsToNat ds) else none
  | '-' :: ds =>
    if ds ≠ [] ∧ ds.all Char.isDigit then some (-(digitsToNat ds : Int)) else none
  | ds =>
    if ds ≠ [] ∧ ds.all Char.isDigit then some (digitsToNat ds) else none

/-- The meter parsing step of units_per_bar:
num, denom = map(int, meter.split(slash)).  It yields a pair exactly when the
split has two components and both parse as ints; otherwise Python raises. -/
def parseMeter (meter : String) : Option (Int × Int) :=
  match splitOnCharL '/' meter.data with
  | [a, b] =>
    match pyInt a, pyInt b with
    | some n, some d => some (n, d)
    | _, _ => none
  | _ => none

/-- re.match of the unit-length pattern 1/(digits): an anchored prefix match
returning the denominator digit group. -/
def matchOneSlash : Chars → Option Nat
  | '1' :: '/' :: rest =>
    if (rest.takeWhile Char.isDigit).isEmpty then none
    else some (digitsToNat (rest.takeWhile Char.isDigit))
  | _ => none

/-- units_per_bar from the source: parse the meter (raising on malformed
meters), fall back to 8 when the unit length does not match the 1/(digits)
shape, and otherwise floor-divide num * unit_denom by denom (raising on a
zero meter denominator, as Python floor division does). -/
def units_per_bar (meter : String) (unit_length : String) : Except String Int :=
  match parseMeter meter with
  | none => .error "ValueError: invalid meter"
  | some (num, denom) =>
    match matchOneSlash unit_length.data with
    | none => .ok 8
    | some unit_denom =>
      if denom = 0 then .error "ZeroDivisionError: integer division or modulo by zero"
      else .ok (Int.fdiv (num * (unit_denom : Int)) denom)

/-- Two-decimal rendering of a rational, standing in for the CPython
format spec .2f applied to the corresponding float. -/
def fmt2 (q : ℚ) : String :=
  let n : Int := Rat.floor (q * 100 + 1 / 2)
  (if n < 0 then "-" else "")
    ++ toString (n.natAbs / 100) ++ "."
    ++ (if n.natAbs % 100 < 10 then "0" else "") ++ toString (n.natAbs % 100)

/-- Rendering of a rational quantity, standing in for the CPython str() of
the corresponding float (exact integers print with a trailing .0). -/
def fmtFloat (q : ℚ) : String :=
  if q.den = 1 then toString q.num ++ ".0"
  else toString q.num ++ "/" ++ toString q.den

/-- The failure message template of validate_bars. -/
def barErrMsg (expected_bars : Int) (upb : Int) (actual_bars : ℚ)
    (actual_units : ℚ) : String :=
  "Expected " ++ toString expected_bars ++ " bars ("
    ++ toString (expected_bars * upb) ++ " units), got "
    ++ fmt2 actual_bars ++ " bars (" ++ fmtFloat actual_units ++ " units)"

/-- validate_bars from the source: derive units per bar, count the actual
units, divide (raising when units_per_bar returned 0), and compare to the
expected bar count with a 0.01 tolerance. -/
def validate_bars (abc : String) (expected_bars : Int) (meter : String)
    (unit_length : String) : Except String (Bool × String) :=
  match units_per_bar meter unit_length with
  | .error e => .error e
  | .ok upb =>
    match count_abc_units abc with
    | .error e => .error e
    | .ok actual_units =>
      if upb = 0 then .error "ZeroDivisionError: float division by zero"
      else
        if |actual_units / (upb : ℚ) - (expected_bars : ℚ)| < 1 / 100 then
          .ok (true, "")
        else
          .ok (false, barErrMsg expected_bars upb (actual_units / (upb : ℚ))
            actual_units)

/-- The ABCHeader dataclass. -/
structure ABCHeader where
  title : String
  meter : String := "4/4"
  unit_length : String := "1/8"
  tempo : Option Nat := none
  key : String := "C"
  midi_program : Nat := 0
  midi_channel : Nat := 1
deriving DecidableEq, Repr

/-- The Section dataclass. -/
structure Section where
  name : String
  bars : Int
  abc : String
deriving DecidableEq, Repr

/-- The Keyswitch dataclass. -/
structure Keyswitch where
  note : Nat
  beat : ℚ
deriving DecidableEq, Repr

/-- The CCAutomation dataclass. -/
structure CCAutomation where
  cc : Nat
  values : List (ℚ × Nat)
deriving DecidableEq, Repr

/-- The list of header lines built by generate_abc_header before joining:
index, title, meter, unit length, the conditional tempo line, key, MIDI
program directive, MIDI channel directive. -/
def generate_abc_header_lines (header : ABCHeader) (index : Nat) : List String :=
  ["X:" ++ toString index,
   "T:" ++ header.title,
   "M:" ++ header.meter,
   "L:" ++ header.unit_length]
  ++ (match header.tempo with
      | some t => ["Q:1/4=" ++ toString t]
      | none => [])
  ++ ["K:" ++ header.key,
      "%%MIDI program " ++ toString header.midi_program,
      "%%MIDI channel " ++ toString header.midi_channel]

/-- Newline join over strings. -/
def joinLines (ls : List String) : String :=
  String.mk (joinLinesL (ls.map String.data))

/-- Newline split over strings. -/
def splitLines (s : String) : List String :=
  (splitOnCharL '\n' s.data).map String.mk

/-- generate_abc_header from the source: build the header lines and join
them with newlines. -/
def generate_abc_header (header : ABCHeader) (index : Nat) : String :=
  joinLines (generate_abc_header_lines header index)

/-- The fixed 12-tone pitch name table of inject_keyswitch. -/
def pitch_names : List String :=
  ["C", "^C", "D", "^D", "E", "F", "^F", "G", "^G", "A", "^A", "B"]

/-- Python str.lower restricted to ASCII letters, which is all the pitch
table contains. -/
def lowerPitch (s : String) : String :=
  String.mk (s.data.map fun c =>
    if 'A' ≤ c ∧ c ≤ 'Z' then Char.ofNat (c.toNat + 32) else c)

/-- The pitch spelling computed by inject_keyswitch: table lookup on the
pitch class, comma marks for negative octaves, lowercasing plus apostrophe
marks for positive octaves. -/
def ks_pitch (note : Nat) : String :=
  let octave : Int := (note / 12 : Nat) - 5
  let base := pitch_names.getD (note % 12) "C"
  if octave < 0 then
    base ++ String.mk (List.replicate octave.natAbs ',')
  else if octave > 0 then
    let p := lowerPitch base
    if octave > 1 then p ++ String.mk (List.replicate (octave - 1).natAbs apoChar)
    else p
  else base

/-- inject_keyswitch from the source: a bracketed very short strike of one
eighth of a unit followed by a rest of seven eighths.  The beat and
unit_length parameters are accepted and ignored, as in the source. -/
def inject_keyswitch (note : Nat) (beat : ℚ) (unit_length : String) : String :=
  "[" ++ ks_pitch note ++ "/8]z7/8"

/-- inject_cc from the source. -/
def inject_cc (cc : Nat) (value : Nat) : String :=
  "%%MIDI control " ++ toString cc ++ " " ++ toString value

/-- A single-quote character as a one-character string, for the quoting in
the validation error message. -/
def sqStr : String := String.mk [apoChar]

/-- The ValueError message raised for an invalid section. -/
def sectionErrMsg (name msg : String) : String :=
  "Section " ++ sqStr ++ name ++ sqStr ++ ": " ++ msg

/-- The bar validation of one section inside assemble_instrument. -/
def sectionCheck (header : ABCHeader) (s : Section) : Except String (Bool × String) :=
  validate_bars s.abc s.bars header.meter header.unit_length

/-- The validation loop of assemble_instrument: sections are checked in the
order of the supplied list, and the first invalid one raises. -/
def validateSections (header : ABCHeader) : List Section → Except String Unit
  | [] => .ok ()
  | s :: rest =>
    match sectionCheck header s with
    | .error e => .error e
    | .ok (valid, msg) =>
      if valid then validateSections header rest
      else .error (sectionErrMsg s.name msg)

/-- The section lookup dict of assemble_instrument; a duplicated name is
overwritten by the later entry, as in a Python dict comprehension. -/
def section_map (sections : List Section) (n : String) : Option Section :=
  sections.foldl (fun acc s => if s.name = n then some s else acc) none

/-- The raw text of the section a structure entry resolves to (empty for an
unresolved name; only used where resolution is known to succeed). -/
def sectionText (sections : List Section) (n : String) : String :=
  match section_map sections n with
  | some s => s.abc
  | none => ""

/-- The body assembly loop of assemble_instrument: for each structure entry
in order, a comment-style marker line and the raw section text; an unknown
name raises. -/
def buildBody (sections : List Section) : List String → Except String (List String)
  | [] => .ok []
  | n :: rest =>
    match section_map sections n with
    | none => .error ("Unknown section: " ++ n)
    | some s =>
      match buildBody sections rest with
      | .error e => .error e
      | .ok tl => .ok (("% Section: " ++ n) :: s.abc :: tl)

/-- assemble_instrument from the source.  The first component of the result
is the header object as left by the call (its title is mutated in place
before assembly); the second is the produced document or the raised error.
The keyswitches and automation parameters are accepted and unused, as in
the source (Python defaults them to None). -/
def assemble_instrument (instrument_name : String) (sections : List Section)
    (structure_ : List String) (header : ABCHeader)
    (keyswitches : Option (List Keyswitch)) (automation : Option (List CCAutomation)) :
    ABCHeader × Except String String :=
  match validateSections header sections with
  | .error e => (header, .error e)
  | .ok () =>
    match buildBody sections structure_ with
    | .error e =>
      ({ header with title := header.title ++ " - " ++ instrument_name }, .error e)
    | .ok body =>
      ({ header with title := header.title ++ " - " ++ instrument_name },
        .ok (joinLines (generate_abc_header
          { header with title := header.title ++ " - " ++ instrument_name } 1
          :: "" :: body)))

/-! ## Helper lemmas -/

theorem countLoop_eq_sum (ts : List ABCTok) :
    ∀ (acc : ℚ) (ds : List ℚ), resolveAll ts = some ds →
    countLoop acc ts = .ok (acc + ds.sum) := by
  induction ts with
  | nil =>
    intro acc ds h
    simp only [resolveAll, Option.some.injEq] at h
    subst h
    simp [countLoop]
  | cons t ts ih =>
    intro acc ds h
    simp only [resolveAll] at h
    cases hd : tokDur t with
    | error e => rw [hd] at h; simp at h
    | ok d =>
      rw [hd] at h
      cases hr : resolveAll ts with
      | none => rw [hr] at h; simp at h
      | some ds2 =>
        rw [hr] at h
        simp only [Option.some.injEq] at h
        subst h
        simp only [countLoop, hd]
        rw [ih (acc + d) ds2 hr]
        simp only [List.sum_cons, Except.ok.injEq]
        ring

theorem sectionCheck_title (header : ABCHeader) (t : String) (s : Section) :
    sectionCheck { header with title := t } s = sectionCheck header s := rfl

theorem validateSections_title (header : ABCHeader) (t : String)
    (l : List Section) :
    validateSections { header with title := t } l = validateSections header l := by
  induction l with
  | nil => rfl
  | cons s rest ih => simp only [validateSections, sectionCheck_title, ih]

theorem validateSections_append (header : ABCHeader) (pre rest : List Section)
    (h : ∀ s ∈ pre, ∃ m, sectionCheck header s = .ok (true, m)) :
    validateSections header (pre ++ rest) = validateSections header rest := by
  induction pre with
  | nil => simp
  | cons s pre ih =>
    obtain ⟨m, hm⟩ := h s (by simp)
    simp only [List.cons_append, validateSections, hm]
    exact ih (fun x hx => h x (by simp [hx]))

theorem validateSections_ok (header : ABCHeader) (l : List Section)
    (h : ∀ s ∈ l, ∃ m, sectionCheck header s = .ok (true, m)) :
    validateSections header l = .ok () := by
  simpa using validateSections_append header l [] h

theorem buildBody_append_error (sections : List Section) (pre rest : List String)
    (hpre : ∀ m ∈ pre, (section_map sections m).isSome) (e : String)
    (h : buildBody sections rest = .error e) :
    buildBody sections (pre ++ rest) = .error e := by
  induction pre with
  | nil => simpa using h
  | cons n pre ih =>
    obtain ⟨s, hs⟩ := Option.isSome_iff_exists.mp (hpre n (by simp))
    simp only [List.cons_append, buildBody, hs, List.append_eq]
    rw [ih (fun m hm => hpre m (by simp [hm]))]

theorem buildBody_ok_char (sections : List Section) (ns : List String) :
    ∀ (body : List String), buildBody sections ns = .ok body →
    (∀ n ∈ ns, (section_map sections n).isSome) ∧
    body = ns.flatMap (fun n => ["% Section: " ++ n, sectionText sections n]) := by
  induction ns with
  | nil =>
    intro body h
    simp only [buildBody, Except.ok.injEq] at h
    subst h
    simp
  | cons n ns ih =>
    intro body h
    simp only [buildBody] at h
    cases hs : section_map sections n with
    | none => rw [hs] at h; simp at h
    | some s =>
      rw [hs] at h
      cases hb : buildBody sections ns with
      | error e => rw [hb] at h; simp at h
      | ok tl =>
        rw [hb] at h
        simp only [Except.ok.injEq] at h
        subst h
        obtain ⟨hall, htl⟩ := ih tl hb
        refine ⟨?_, ?_⟩
        · intro m hm
          rcases List.mem_cons.mp hm with h1 | h1
          · subst h1; simp [hs]
          · exact hall m h1
        · subst htl
          simp [List.flatMap_cons, sectionText, hs]

theorem splitOnCharL_ne_nil (sep : Char) (l : Chars) : splitOnCharL sep l ≠ [] := by
  induction l with
  | nil => simp [splitOnCharL]
  | cons c rest ih =>
    by_cases hc : c = sep
    · simp [splitOnCharL, hc]
    · simp only [splitOnCharL, if_neg hc]
      cases h : splitOnCharL sep rest with
      | nil => simp
      | cons a t => simp

theorem splitOnCharL_append (sep : Char) (l r : Chars) (h : sep ∉ l) :
    splitOnCharL sep (l ++ r) =
      (l ++ (splitOnCharL sep r).headD []) :: (splitOnCharL sep r).tail := by
  induction l with
  | nil =>
    cases hr : splitOnCharL sep r with
    | nil => exact absurd hr (splitOnCharL_ne_nil sep r)
    | cons a t => simp [hr]
  | cons c l ih =>
    have hc : ¬ c = sep := by
      intro hcc; exact h (by simp [hcc])
    simp only [List.cons_append, splitOnCharL, if_neg hc, List.append_eq]
    rw [ih (fun hm => h (by simp [hm]))]

theorem splitOnCharL_joinLinesL (ls : List Chars) (hne : ls ≠ [])
    (hfree : ∀ l ∈ ls, '\n' ∉ l) :
    splitOnCharL '\n' (joinLinesL ls) = ls := by
  induction ls with
  | nil => exact absurd rfl hne
  | cons l ls ih =>
    cases ls with
    | nil =>
      simp only [joinLinesL]
      have := splitOnCharL_append '\n' l [] (hfree l (by simp))
      simpa [splitOnCharL] using this
    | cons l2 ls2 =>
      have hjoin : joinLinesL (l :: l2 :: ls2) = l ++ '\n' :: joinLinesL (l2 :: ls2) := rfl
      rw [hjoin]
      rw [splitOnCharL_append '\n' l ('\n' :: joinLinesL (l2 :: ls2))
        (hfree l (by simp))]
      have hrest : splitOnCharL '\n' ('\n' :: joinLinesL (l2 :: ls2)) =
          [] :: splitOnCharL '\n' (joinLinesL (l2 :: ls2)) := by
        simp [splitOnCharL]
      rw [hrest, ih (by simp) (fun x hx => hfree x (by simp [hx]))]
      simp

/-! ## Claim theorems -/

/-- Claim C1: validate_bars succeeds exactly when the actual bar count
(actual units divided by units per bar) is within 0.01 of the expected bar
count; a text summing to exactly expected_bars * units_per_bar units always
validates; a computed bar count of expected_bars + 0.0099 succeeds while
expected_bars + 0.011 fails; and the failure message reports the expected
unit count, the actual bar count to two decimals, and the actual unit
count. -/
theorem claim_C1_validate_bars_tolerance
    (abc : String) (expected_bars : Int) (meter unit_length : String)
    (upb : Int) (units : ℚ)
    (hupb : units_per_bar meter unit_length = .ok upb) (hne : upb ≠ 0)
    (hcount : count_abc_units abc = .ok units) :
    ((validate_bars abc expected_bars meter unit_length = .ok (true, "")) ↔
      |units / (upb : ℚ) - (expected_bars : ℚ)| < 1 / 100)
    ∧ (units = ((expected_bars * upb : Int) : ℚ) →
        validate_bars abc expected_bars meter unit_length = .ok (true, ""))
    ∧ (units / (upb : ℚ) = (expected_bars : ℚ) + 99 / 10000 →
        validate_bars abc expected_bars meter unit_length = .ok (true, ""))
    ∧ (units / (upb : ℚ) = (expected_bars : ℚ) + 11 / 1000 →
        validate_bars abc expected_bars meter unit_length =
          .ok (false, barErrMsg expected_bars upb (units / (upb : ℚ)) units))
    ∧ (¬ |units / (upb : ℚ) - (expected_bars : ℚ)| < 1 / 100 →
        validate_bars abc expected_bars meter unit_length =
          .ok (false, barErrMsg expected_bars upb (units / (upb : ℚ)) units)) := by
  have hval : validate_bars abc expected_bars meter unit_length =
      if |units / (upb : ℚ) - (expected_bars : ℚ)| < 1 / 100 then
        .ok (true, "")
      else
        .ok (false, barErrMsg expected_bars upb (units / (upb : ℚ)) units) := by
    simp only [validate_bars, hupb, hcount, if_neg hne]
  refine ⟨?_, ?_, ?_, ?_, ?_⟩
  · rw [hval]
    constructor
    · intro h
      by_contra hn
      rw [if_neg hn] at h
      simp at h
    · intro h
      rw [if_pos h]
  · intro h
    have hbar : units / (upb : ℚ) = (expected_bars : ℚ) := by
      rw [h]
      push_cast
      rw [mul_div_assoc, div_self (by exact_mod_cast hne), mul_one]
    rw [hval, if_pos (by rw [hbar]; simp)]
  · intro h
    rw [hval, if_pos ?_]
    rw [h]
    have : (expected_bars : ℚ) + 99 / 10000 - (expected_bars : ℚ) = 99 / 10000 := by
      ring
    rw [this, abs_of_nonneg (by norm_num)]
    norm_num
  · intro h
    rw [hval, if_neg ?_]
    rw [h]
    have : (expected_bars : ℚ) + 11 / 1000 - (expected_bars : ℚ) = 11 / 1000 := by
      ring
    rw [this, abs_of_nonneg (by norm_num)]
    norm_num
  · intro h
    rw [hval, if_neg h]

theorem claim_C1_witness :
    validate_bars "C2C2C2C2 | C2C2C2C2 |" 2 "4/4" "1/8" = .ok (true, "") := by
  have h := claim_C1_validate_bars_tolerance "C2C2C2C2 | C2C2C2C2 |" 2 "4/4" "1/8"
    8 16 (by with_unfolding_all decide) (by with_unfolding_all decide) (by with_unfolding_all decide)
  exact h.2.1 (by norm_num)

/-- Claim C2: for a meter that parses as two integers N and D (positive in
the claim) and a unit length matching the 1/(digits) shape with denominator
uD, units_per_bar returns (N * uD) floor-divided by D; when the unit length
does not match that shape it returns the fallback 8; in particular 4/4 with
1/8 gives 8 and 3/4 with 1/8 gives 6. -/
theorem claim_C2_units_per_bar_formula :
    (∀ (meter unit_length : String) (n d : Int) (ud : Nat),
      parseMeter meter = some (n, d) → 0 < n → 0 < d →
      matchOneSlash unit_length.data = some ud →
      units_per_bar meter unit_length = .ok (Int.fdiv (n * (ud : Int)) d))
    ∧ (∀ (meter unit_length : String) (n d : Int),
      parseMeter meter = some (n, d) →
      matchOneSlash unit_length.data = none →
      units_per_bar meter unit_length = .ok 8)
    ∧ units_per_bar "4/4" "1/8" = .ok 8
    ∧ units_per_bar "3/4" "1/8" = .ok 6 := by
  refine ⟨?_, ?_, by with_unfolding_all decide, by with_unfolding_all decide⟩
  · intro meter ul n d ud hm hn hd hu
    simp only [units_per_bar, hm, hu]
    rw [if_neg (by omega)]
  · intro meter ul n d hm hu
    simp only [units_per_bar, hm, hu]

theorem claim_C2_witness :
    units_per_bar "4/4" "1/8" = .ok (Int.fdiv (4 * ((8 : Nat) : Int)) 4) :=
  claim_C2_units_per_bar_formula.1 "4/4" "1/8" 4 4 8 (by with_unfolding_all decide) (by norm_num)
    (by norm_num) (by with_unfolding_all decide)

/-- Claim C3: count_abc_units returns the sum, in scan order, of the
per-token durations resolved by the first-match precedence (whenever every
token resolves, i.e. no zero denominator raises); tokens that do not match
the pattern are skipped, and the listed concrete examples hold, including
the bracketed chord group contributing 0. -/
theorem claim_C3_count_sums_token_durations :
    (∀ (abc : String) (ds : List ℚ),
      resolveAll (scanTokens (cleanAbc abc.data)) = some ds →
      count_abc_units abc = .ok ds.sum)
    ∧ count_abc_units "C" = .ok 1
    ∧ count_abc_units "C2" = .ok 2
    ∧ count_abc_units "C/2" = .ok (1 / 2)
    ∧ count_abc_units "C3/2" = .ok (3 / 2)
    ∧ count_abc_units "z4" = .ok 4
    ∧ count_abc_units "[CEG]" = .ok 0
    ∧ count_abc_units "C!?C" = .ok 2 := by
  refine ⟨?_, by with_unfolding_all decide, by with_unfolding_all decide, by with_unfolding_all decide, by with_unfolding_all decide, by with_unfolding_all decide, by with_unfolding_all decide,
    by with_unfolding_all decide⟩
  intro abc ds h
  unfold count_abc_units
  rw [countLoop_eq_sum _ 0 ds h, zero_add]

theorem claim_C3_witness :
    count_abc_units "z4 C3/2" = .ok ([(4 : ℚ), 3 / 2].sum) :=
  claim_C3_count_sums_token_durations.1 "z4 C3/2" [4, 3 / 2] (by with_unfolding_all decide)

/-- Claim C5 counterexample: a malformed meter together with a malformed
unit length makes units_per_bar raise a ValueError instead of returning the
fallback 8, refuting the claim that malformed meter strings never error. -/
theorem claim_C5_counterexample :
    units_per_bar "bad" "x" = .error "ValueError: invalid meter"
    ∧ units_per_bar "bad" "x" ≠ .ok 8 := by
  refine ⟨by with_unfolding_all decide, by with_unfolding_all decide⟩

/-- Claim C5 as amended: only a malformed unit-length string falls back
silently to 8 (provided the meter parses as two integers); a malformed
meter string raises a ValueError instead. -/
theorem claim_C5_amended_fallback :
    (∀ (meter unit_length : String) (n d : Int),
      parseMeter meter = some (n, d) →
      matchOneSlash unit_length.data = none →
      units_per_bar meter unit_length = .ok 8)
    ∧ (∀ (meter unit_length : String),
      parseMeter meter = none →
      units_per_bar meter unit_length = .error "ValueError: invalid meter") := by
  constructor
  · intro meter ul n d hm hu
    simp only [units_per_bar, hm, hu]
  · intro meter ul hm
    simp only [units_per_bar, hm]

theorem claim_C5_witness :
    units_per_bar "4/4" "8" = .ok 8
    ∧ units_per_bar "4-4" "1/8" = .error "ValueError: invalid meter" :=
  ⟨claim_C5_amended_fallback.1 "4/4" "8" 4 4 (by with_unfolding_all decide) (by with_unfolding_all decide),
   claim_C5_amended_fallback.2 "4-4" "1/8" (by with_unfolding_all decide)⟩

/-- Claim C9: units_per_bar can return 0 for well-formed inputs (meter 1/8
with unit length 1/4), and whenever it returns 0, validate_bars reaches the
unguarded division and raises a ZeroDivisionError, for every notation text
whose unit count itself computes. -/
theorem claim_C9_division_by_zero_reachable :
    units_per_bar "1/8" "1/4" = .ok 0
    ∧ (∀ (meter unit_length : String),
      units_per_bar meter unit_length = .ok 0 →
      ∀ (abc : String) (expected_bars : Int) (units : ℚ),
      count_abc_units abc = .ok units →
      validate_bars abc expected_bars meter unit_length =
        .error "ZeroDivisionError: float division by zero") := by
  refine ⟨by with_unfolding_all decide, ?_⟩
  intro meter ul h abc e units hc
  simp only [validate_bars, h, hc, if_pos]

theorem claim_C9_witness :
    validate_bars "C" 1 "1/8" "1/4" =
      .error "ZeroDivisionError: float division by zero" :=
  claim_C9_division_by_zero_reachable.2 "1/8" "1/4" (by with_unfolding_all decide) "C" 1 1 (by with_unfolding_all decide)

/-- First two characters of a string append come from the first string when
it is long enough. -/
theorem take2_data_append (s t : String) (h : 2 ≤ s.data.length) :
    (s ++ t).data.take 2 = s.data.take 2 := by
  rw [String.data_append, List.take_append_of_le_length h]

/-- Claim C4: assemble_instrument raises exactly one error per failing
call: the validation error of the first section, in supplied-list order,
whose bar count diverges beyond tolerance (masking any unknown-section
error in the same call, since all bar validations run first); an
unknown-section error when a structure name is absent from the sections;
and on any error no document text is returned. -/
theorem claim_C4_single_error (iname : String) (sections : List Section)
    (structure_ : List String) (header : ABCHeader) :
    (∀ (pre : List Section) (s : Section) (post : List Section) (msg : String),
      sections = pre ++ s :: post →
      (∀ s2 ∈ pre, ∃ m, sectionCheck header s2 = .ok (true, m)) →
      sectionCheck header s = .ok (false, msg) →
      (assemble_instrument iname sections structure_ header none none).2 =
        .error (sectionErrMsg s.name msg))
    ∧ ((∀ s ∈ sections, ∃ m, sectionCheck header s = .ok (true, m)) →
      ∀ (pre : List String) (n : String) (post : List String),
      structure_ = pre ++ n :: post →
      (∀ m ∈ pre, (section_map sections m).isSome) →
      section_map sections n = none →
      (assemble_instrument iname sections structure_ header none none).2 =
        .error ("Unknown section: " ++ n))
    ∧ (∀ e, (assemble_instrument iname sections structure_ header none none).2 =
        .error e →
      ∀ doc, (assemble_instrument iname sections structure_ header none none).2 ≠
        .ok doc) := by
  refine ⟨?_, ?_, ?_⟩
  · intro pre s post msg hsec hpre hs
    have hv : validateSections header sections = .error (sectionErrMsg s.name msg) := by
      rw [hsec, validateSections_append header pre (s :: post) hpre]
      simp [validateSections, hs]
    simp [assemble_instrument, hv]
  · intro hall pre n post hstruct hpre hn
    have hv : validateSections header sections = .ok () :=
      validateSections_ok header sections hall
    have hb : buildBody sections structure_ = .error ("Unknown section: " ++ n) := by
      rw [hstruct]
      exact buildBody_append_error sections pre (n :: post) hpre _
        (by simp [buildBody, hn])
    simp [assemble_instrument, hv, hb]
  · intro e he doc
    rw [he]
    simp

theorem claim_C4_witness :
    (assemble_instrument "gtr" [⟨"A", 1, "C8"⟩, ⟨"B", 2, "z8"⟩] ["A", "X"]
      ⟨"T", "4/4", "1/8", none, "C", 0, 1⟩ none none).2 =
      .error (sectionErrMsg "B" (barErrMsg 2 8 1 8)) := by
  refine (claim_C4_single_error "gtr" _ _ _).1 [⟨"A", 1, "C8"⟩] ⟨"B", 2, "z8"⟩ []
    (barErrMsg 2 8 1 8) rfl ?_ (by with_unfolding_all decide)
  intro s2 hs2
  rcases List.mem_singleton.mp hs2 with rfl
  exact ⟨"", by with_unfolding_all decide⟩

/-- Claim C6: on success the document is the newline join of the header
block (with the instrument-suffixed title), one blank line, and, for each
structure entry in order with repeats, a comment-style section marker
followed by the raw section text. -/
theorem claim_C6_document_layout (iname : String) (sections : List Section)
    (structure_ : List String) (header : ABCHeader) (doc : String)
    (hok : (assemble_instrument iname sections structure_ header none none).2 =
      .ok doc) :
    (∀ n ∈ structure_, (section_map sections n).isSome)
    ∧ doc = joinLines
        (generate_abc_header
            { header with title := header.title ++ " - " ++ iname } 1
          :: "" :: structure_.flatMap
            (fun n => ["% Section: " ++ n, sectionText sections n])) := by
  unfold assemble_instrument at hok
  cases hv : validateSections header sections with
  | error e => rw [hv] at hok; simp at hok
  | ok u =>
    cases u
    rw [hv] at hok
    cases hb : buildBody sections structure_ with
    | error e => rw [hb] at hok; simp at hok
    | ok body =>
      rw [hb] at hok
      simp only [Except.ok.injEq] at hok
      obtain ⟨hall, hbody⟩ := buildBody_ok_char sections structure_ body hb
      subst hbody
      exact ⟨hall, hok.symm⟩

theorem claim_C6_witness :
    (∀ n ∈ ["A", "B", "A"],
      (section_map [⟨"A", 2, "C2C2C2C2 | C2C2C2C2 |"⟩, ⟨"B", 2, "z8 | z8 |"⟩]
        n).isSome)
    ∧ (match (assemble_instrument "lead"
        [⟨"A", 2, "C2C2C2C2 | C2C2C2C2 |"⟩, ⟨"B", 2, "z8 | z8 |"⟩]
        ["A", "B", "A"] ⟨"Song", "4/4", "1/8", none, "C", 0, 1⟩ none none).2 with
      | .ok d => d
      | .error _ => "") = joinLines
        (generate_abc_header
            { title := "Song - lead", meter := "4/4", unit_length := "1/8",
              tempo := none, key := "C", midi_program := 0, midi_channel := 1 } 1
          :: "" :: (["A", "B", "A"].flatMap
            (fun n => ["% Section: " ++ n,
              sectionText [⟨"A", 2, "C2C2C2C2 | C2C2C2C2 |"⟩, ⟨"B", 2, "z8 | z8 |"⟩] n]))) := by
  have h := claim_C6_document_layout "lead"
    [⟨"A", 2, "C2C2C2C2 | C2C2C2C2 |"⟩, ⟨"B", 2, "z8 | z8 |"⟩]
    ["A", "B", "A"] ⟨"Song", "4/4", "1/8", none, "C", 0, 1⟩
    (match (assemble_instrument "lead"
        [⟨"A", 2, "C2C2C2C2 | C2C2C2C2 |"⟩, ⟨"B", 2, "z8 | z8 |"⟩]
        ["A", "B", "A"] ⟨"Song", "4/4", "1/8", none, "C", 0, 1⟩ none none).2 with
      | .ok d => d
      | .error _ => "")
    (by with_unfolding_all decide)
  exact ⟨h.1, h.2⟩

/-- Claim C7: every call that reaches the assembly stage (all bar
validations pass) mutates the header title to its old value with the
instrument name appended, leaves the other header fields unchanged, and a
repeated call on the resulting header appends cumulatively. -/
theorem claim_C7_title_mutation (iname : String) (sections : List Section)
    (structure_ : List String) (header : ABCHeader)
    (hv : validateSections header sections = .ok ()) :
    (assemble_instrument iname sections structure_ header none none).1 =
      { header with title := header.title ++ " - " ++ iname }
    ∧ (assemble_instrument iname sections structure_ header none none).1.meter =
        header.meter
    ∧ (assemble_instrument iname sections structure_ header none none).1.unit_length =
        header.unit_length
    ∧ (assemble_instrument iname sections structure_ header none none).1.tempo =
        header.tempo
    ∧ (assemble_instrument iname sections structure_ header none none).1.key =
        header.key
    ∧ (assemble_instrument iname sections structure_ header none none).1.midi_program =
        header.midi_program
    ∧ (assemble_instrument iname sections structure_ header none none).1.midi_channel =
        header.midi_channel
    ∧ (assemble_instrument iname sections structure_
        ((assemble_instrument iname sections structure_ header none none).1)
        none none).1 =
      { header with title := (header.title ++ " - " ++ iname) ++ " - " ++ iname } := by
  have h1 : (assemble_instrument iname sections structure_ header none none).1 =
      { header with title := header.title ++ " - " ++ iname } := by
    unfold assemble_instrument
    rw [hv]
    cases hb : buildBody sections structure_ <;> simp
  have hv2 : validateSections
      { header with title := header.title ++ " - " ++ iname } sections = .ok () := by
    rw [validateSections_title]
    exact hv
  have h2 : (assemble_instrument iname sections structure_
      ((assemble_instrument iname sections structure_ header none none).1)
      none none).1 =
      { header with title := (header.title ++ " - " ++ iname) ++ " - " ++ iname } := by
    rw [h1]
    unfold assemble_instrument
    rw [hv2]
    cases hb : buildBody sections structure_ <;> simp
  exact ⟨h1, by rw [h1], by rw [h1], by rw [h1], by rw [h1], by rw [h1], by rw [h1], h2⟩

theorem claim_C7_witness :
    (assemble_instrument "bass" [⟨"A", 1, "z8"⟩] ["A"]
      ⟨"Song", "4/4", "1/8", none, "C", 0, 1⟩ none none).1 =
      { title := "Song - bass", meter := "4/4", unit_length := "1/8",
        tempo := none, key := "C", midi_program := 0, midi_channel := 1 }
    ∧ (assemble_instrument "bass" [⟨"A", 1, "z8"⟩] ["A"]
        ((assemble_instrument "bass" [⟨"A", 1, "z8"⟩] ["A"]
          ⟨"Song", "4/4", "1/8", none, "C", 0, 1⟩ none none).1) none none).1 =
      { title := "Song - bass - bass", meter := "4/4", unit_length := "1/8",
        tempo := none, key := "C", midi_program := 0, midi_channel := 1 } := by
  have h := claim_C7_title_mutation "bass" [⟨"A", 1, "z8"⟩] ["A"]
    ⟨"Song", "4/4", "1/8", none, "C", 0, 1⟩ (by with_unfolding_all decide)
  exact ⟨h.1, h.2.2.2.2.2.2.2⟩

/-- Claim C8: the header renders as the fixed ordered list of lines index,
title, meter, unit length, conditional tempo, key, program directive,
channel directive; with tempo unset no tempo line appears anywhere in the
output; with tempo t set the line encoding 1/4 = t appears (in particular
t = 120). -/
theorem claim_C8_header_lines_order (header : ABCHeader) (i : Nat)
    (hfree : ∀ l ∈ generate_abc_header_lines header i, '\n' ∉ l.data) :
    splitLines (generate_abc_header header i) =
      (["X:" ++ toString i, "T:" ++ header.title, "M:" ++ header.meter,
        "L:" ++ header.unit_length]
        ++ (match header.tempo with
            | some t => ["Q:1/4=" ++ toString t]
            | none => [])
        ++ ["K:" ++ header.key,
            "%%MIDI program " ++ toString header.midi_program,
            "%%MIDI channel " ++ toString header.midi_channel])
    ∧ (header.tempo = none →
        ∀ l ∈ splitLines (generate_abc_header header i),
          l.data.take 2 ≠ ['Q', ':'])
    ∧ (∀ t, header.tempo = some t →
        ("Q:1/4=" ++ toString t) ∈ splitLines (generate_abc_header header i)) := by
  have hmain : splitLines (generate_abc_header header i) =
      generate_abc_header_lines header i := by
    unfold generate_abc_header joinLines splitLines
    rw [splitOnCharL_joinLinesL ((generate_abc_header_lines header i).map String.data)
      ?hne ?hfree]
    · rw [List.map_map]
      exact List.map_id'' (fun s => rfl) _
    case hne =>
      unfold generate_abc_header_lines
      cases header.tempo <;> simp
    case hfree =>
      intro l hl
      obtain ⟨s, hs, rfl⟩ := List.mem_map.mp hl
      exact hfree s hs
  refine ⟨by rw [hmain]; rfl, ?_, ?_⟩
  · intro htempo l hl
    rw [hmain] at hl
    unfold generate_abc_header_lines at hl
    rw [htempo] at hl
    simp only [List.nil_append, List.cons_append, List.append_nil,
      List.mem_cons, List.mem_singleton, List.not_mem_nil] at hl
    rcases hl with rfl | rfl | rfl | rfl | rfl | rfl | rfl | h
    · rw [take2_data_append "X:" _ (by decide)]; decide
    · rw [take2_data_append "T:" _ (by decide)]; decide
    · rw [take2_data_append "M:" _ (by decide)]; decide
    · rw [take2_data_append "L:" _ (by decide)]; decide
    · rw [take2_data_append "K:" _ (by decide)]; decide
    · rw [take2_data_append "%%MIDI program " _ (by decide)]; decide
    · rw [take2_data_append "%%MIDI channel " _ (by decide)]; decide
    · exact absurd h (by simp)
  · intro t htempo
    rw [hmain]
    unfold generate_abc_header_lines
    rw [htempo]
    simp

theorem claim_C8_witness :
    ("Q:1/4=120" ∈ splitLines (generate_abc_header
      ⟨"Song", "4/4", "1/8", some 120, "C", 0, 1⟩ 1))
    ∧ (∀ l ∈ splitLines (generate_abc_header
        ⟨"Song", "4/4", "1/8", none, "C", 0, 1⟩ 1),
        l.data.take 2 ≠ ['Q', ':']) :=
  ⟨(claim_C8_header_lines_order ⟨"Song", "4/4", "1/8", some 120, "C", 0, 1⟩ 1
      (by with_unfolding_all decide)).2.2 120 rfl,
   (claim_C8_header_lines_order ⟨"Song", "4/4", "1/8", none, "C", 0, 1⟩ 1
      (by with_unfolding_all decide)).2.1 rfl⟩

/-- Claim C10: for every MIDI note number and beat offset, the token built
by inject_keyswitch counts as 7/8 of a unit rather than one full unit: the
bracketed 1/8-unit strike is removed by the chord-bracket stripping, so
only the 7/8-unit rest is counted, while the strike text alone counts as
1/8; hence the counted duration is the played duration (1/8 + 7/8 = 1 unit)
minus 1/8. -/
theorem claim_C10_keyswitch_counted_short (note : Nat) (hnote : note < 128)
    (beat : ℚ) (unit_length : String) :
    count_abc_units (inject_keyswitch note beat unit_length) = .ok (7 / 8)
    ∧ count_abc_units (ks_pitch note ++ "/8") = .ok (1 / 8)
    ∧ count_abc_units "z7/8" = .ok (7 / 8)
    ∧ (7 / 8 : ℚ) = (1 / 8 + 7 / 8) - 1 / 8 := by
  have h1 : ∀ n, n < 128 →
      count_abc_units (inject_keyswitch n 0 "1/8") = .ok (7 / 8)
      ∧ count_abc_units (ks_pitch n ++ "/8") = .ok (1 / 8) := by
    with_unfolding_all decide
  have he : inject_keyswitch note beat unit_length =
      inject_keyswitch note 0 "1/8" := rfl
  exact ⟨he ▸ (h1 note hnote).1, (h1 note hnote).2,
    by with_unfolding_all decide, by norm_num⟩

theorem claim_C10_witness :
    count_abc_units (inject_keyswitch 24 0 "1/8") = .ok (7 / 8)
    ∧ count_abc_units (ks_pitch 24 ++ "/8") = .ok (1 / 8)
    ∧ count_abc_units "z7/8" = .ok (7 / 8)
    ∧ (7 / 8 : ℚ) = (1 / 8 + 7 / 8) - 1 / 8 :=
  claim_C10_keyswitch_counted_short 24 (by norm_num) 0 "1/8"
